import Mathlib

/-!
Verification development for the Supernote `.note` parser and renderer
(`src/parser.ts`, `src/renderer.ts`).

The TypeScript sources are shallowly embedded below:

* byte buffers (`Uint8Array`) become `List Nat` whose entries are byte
  values; out-of-range reads, which yield `undefined` in JavaScript and
  coerce to `0` in the arithmetic contexts used by the source, are
  modelled by `getD _ 0` style lookups;
* `number` values that can be `NaN` (results of `parseInt`) are modelled
  as `Option Int`, `none` standing for `NaN`;
* JavaScript records (plain objects) become association lists in
  insertion order.  Where the source relies on the `in` operator, the
  prototype chain of a plain object is modelled by the fixed list of
  `Object.prototype` property names, see `objectProtoKeys`;
* fallible code returns a `PRes` result value.

Section 1 embeds the RLE decoder, section 2 the byte level reader and
key-value extraction, section 3 the container parser, section 4 the
compositor.  Theorems for the individual claims follow their sections.
-/

/-! ## Section 1: RLE decoder (`decodeRLE`, `writePixels`) -/

/-- Palette from `ENCODED_COLORS`; an unknown code yields `(0,0,0,0)`,
matching `ENCODED_COLORS[encodedColor] || [0, 0, 0, 0]`. -/
def ENCODED_COLORS (code : Nat) : Nat × Nat × Nat × Nat :=
  if code = 0x61 then (0, 0, 0, 255)
  else if code = 0x62 then (255, 255, 255, 0)
  else if code = 0x63 then (169, 169, 169, 255)
  else if code = 0x64 then (128, 128, 128, 255)
  else if code = 0x65 then (255, 255, 255, 255)
  else if code = 0x66 then (0, 0, 0, 255)
  else if code = 0x67 then (169, 169, 169, 255)
  else if code = 0x68 then (128, 128, 128, 255)
  else if code = 0x9d then (169, 169, 169, 255)
  else if code = 0xc9 then (128, 128, 128, 255)
  else if code = 0x9e then (169, 169, 169, 255)
  else if code = 0xca then (128, 128, 128, 255)
  else (0, 0, 0, 0)

def SPECIAL_LENGTH_MARKER : Nat := 0xff
def SPECIAL_LENGTH : Nat := 0x4000

/-- One iteration of the `writePixels` loop: store the four RGBA bytes of
one pixel at byte index `idx`, guarded by `idx + 3 < result.length`
exactly as in the source (`List.set` out of range is a no-op anyway, but
the guard is kept to mirror the code). -/
def writePixel (result : List Nat) (idx : Nat) (rgba : Nat × Nat × Nat × Nat) : List Nat :=
  if idx + 3 < result.length then
    ((((result.set idx rgba.1).set (idx + 1) rgba.2.1).set
        (idx + 2) rgba.2.2.1).set (idx + 3) rgba.2.2.2)
  else result

/-- `writePixels(result, offset, encodedColor, count)`: writes `count`
pixels of the palette colour starting at byte `offset`, pixel `i` at
`offset + i*4`, each write clipped by the per-pixel bound check. -/
def writePixels (result : List Nat) (offset : Nat) (encodedColor : Nat) :
    Nat → List Nat
  | 0 => result
  | n + 1 =>
      writePixels (writePixel result offset (ENCODED_COLORS encodedColor))
        (offset + 4) encodedColor n

/-- Decoder state: output buffer, write cursor (`resultOffset`) and the
pending extended-run pair (`holder`). -/
structure RLEState where
  result : List Nat
  resultOffset : Nat
  holder : Option (Nat × Nat)
deriving Repr, DecidableEq

/-- Emit `count` pixels of `color` at the cursor and advance the cursor
by `count * 4` bytes, clearing the holder: the common shape of all three
emitting branches of the loop body. -/
def rleEmit (s : RLEState) (color count : Nat) : RLEState :=
  { result := writePixels s.result s.resultOffset color count
    resultOffset := s.resultOffset + count * 4
    holder := none }

/-- The fall-through part of the loop body (the three `if` branches on
`length` at the bottom of the loop), reached either with no pending
holder or after a non-matching holder was flushed. -/
def rleNormal (s : RLEState) (color length : Nat) : RLEState :=
  if length = SPECIAL_LENGTH_MARKER then
    rleEmit s color SPECIAL_LENGTH
  else if Nat.land length 0x80 ≠ 0 then
    { s with holder := some (color, length) }
  else
    rleEmit s color (length + 1)

/-- One iteration of `for (let i = 1; i < buffer.length; i += 2)` acting
on the pair `(color, length) = (buffer[i-1], buffer[i])`. -/
def rleStep (s : RLEState) (p : Nat × Nat) : RLEState :=
  match s.holder with
  | some (prevColor, prevLength) =>
      if p.1 = prevColor then
        rleEmit s p.1 (1 + p.2 + ((Nat.land prevLength 0x7f + 1) <<< 7))
      else
        rleNormal (rleEmit s prevColor ((Nat.land prevLength 0x7f + 1) <<< 7)) p.1 p.2
  | none => rleNormal s p.1 p.2

/-- The `(color, length)` pairs visited by the loop: indices
`(0,1), (2,3), ...`; a trailing odd byte is never visited because the
loop guard is `i < buffer.length` with `i` odd. -/
def toPairs : List Nat → List (Nat × Nat)
  | c :: l :: rest => (c, l) :: toPairs rest
  | _ => []

def rleInit (width height : Nat) : RLEState :=
  { result := List.replicate (width * height * 4) 0, resultOffset := 0, holder := none }

def rleFold (buffer : List Nat) (width height : Nat) : RLEState :=
  (toPairs buffer).foldl rleStep (rleInit width height)

/-- The trailing-holder search `for (let i = 7; i >= 0; i--)`: the first
(largest) shift whose scaled run fits in `gap` bytes wins; result `0`
when none fits.  `gap` is natural-number truncated subtraction in the
caller; in the source the same expression can be negative, in which case
no candidate fits either, because every candidate is at least 4 bytes. -/
def resolveHolderFrom (length gap : Nat) : Nat → Nat
  | 0 =>
      let testLength := (Nat.land length 0x7f + 1) <<< 0
      if testLength * 4 ≤ gap then testLength else 0
  | i + 1 =>
      let testLength := (Nat.land length 0x7f + 1) <<< (i + 1)
      if testLength * 4 ≤ gap then testLength else resolveHolderFrom length gap i

def resolveHolder (length gap : Nat) : Nat := resolveHolderFrom length gap 7

/-- `decodeRLE(buffer, width, height)`. -/
def decodeRLE (buffer : List Nat) (width height : Nat) : List Nat :=
  let expectedLength := width * height * 4
  let s := rleFold buffer width height
  match s.holder with
  | none => s.result
  | some (color, length) =>
      let gap := expectedLength - s.resultOffset
      let adjustedLength := resolveHolder length gap
      if adjustedLength > 0 then
        writePixels s.result s.resultOffset color adjustedLength
      else s.result

/-- Byte positions at or beyond this index are never the target of a
pixel write during `decodeRLE` (final cursor, plus the trailing-holder
emission which writes without advancing the cursor). -/
def decodeReach (buffer : List Nat) (width height : Nat) : Nat :=
  let s := rleFold buffer width height
  match s.holder with
  | none => s.resultOffset
  | some (_, length) =>
      s.resultOffset + resolveHolder length (width * height * 4 - s.resultOffset) * 4

/-! ### Basic lemmas about `writePixels` -/

theorem writePixel_length (result : List Nat) (idx : Nat) (rgba : Nat × Nat × Nat × Nat) :
    (writePixel result idx rgba).length = result.length := by
  unfold writePixel
  split <;> simp

theorem writePixel_getElem?_outside (result : List Nat) (idx : Nat)
    (rgba : Nat × Nat × Nat × Nat) (j : Nat) (h : j < idx ∨ idx + 4 ≤ j) :
    (writePixel result idx rgba)[j]? = result[j]? := by
  have h0 : j ≠ idx := by omega
  have h1 : j ≠ idx + 1 := by omega
  have h2 : j ≠ idx + 2 := by omega
  have h3 : j ≠ idx + 3 := by omega
  unfold writePixel
  split
  · rw [List.getElem?_set_ne (Ne.symm h3), List.getElem?_set_ne (Ne.symm h2),
      List.getElem?_set_ne (Ne.symm h1), List.getElem?_set_ne (Ne.symm h0)]
  · rfl

theorem writePixels_length (count : Nat) : ∀ (result : List Nat) (offset c : Nat),
    (writePixels result offset c count).length = result.length := by
  induction count with
  | zero => intro result offset c; rfl
  | succ n ih =>
      intro result offset c
      show (writePixels (writePixel result offset _) (offset + 4) c n).length = _
      rw [ih, writePixel_length]

theorem writePixels_getElem?_outside (count : Nat) :
    ∀ (result : List Nat) (offset c j : Nat), (j < offset ∨ offset + count * 4 ≤ j) →
      (writePixels result offset c count)[j]? = result[j]? := by
  induction count with
  | zero => intro result offset c j _; rfl
  | succ n ih =>
      intro result offset c j h
      show (writePixels (writePixel result offset _) (offset + 4) c n)[j]? = _
      rw [ih _ _ _ _ (by omega), writePixel_getElem?_outside _ _ _ _ (by omega)]

/-- C1: with a pending holder, a matching-colour pair is consumed as a
continuation emitting `1 + length + ((holderLength & 0x7F + 1) << 7)`
pixels; a non-matching pair first flushes
`(holderLength & 0x7F + 1) << 7` pixels of the holder colour and is then
evaluated under the normal rules (`0xFF` gives `0x4000` pixels, a set
high bit stashes a new holder, otherwise `length + 1` pixels); the old
holder is cleared in both branches, and emitting means writing the run
with `writePixels` at the cursor and advancing the cursor by four bytes
per pixel. -/
theorem rleStep_holder_spec (s : RLEState) (prevColor prevLength color length : Nat)
    (h : s.holder = some (prevColor, prevLength)) :
    (color = prevColor →
      rleStep s (color, length) =
        rleEmit s color (1 + length + ((Nat.land prevLength 0x7f + 1) <<< 7))) ∧
    (color ≠ prevColor →
      rleStep s (color, length) =
        rleNormal (rleEmit s prevColor ((Nat.land prevLength 0x7f + 1) <<< 7)) color length) ∧
    (∀ (t : RLEState) (c l : Nat),
      (l = 0xff → rleNormal t c l = rleEmit t c 0x4000) ∧
      (l ≠ 0xff → Nat.land l 0x80 ≠ 0 → rleNormal t c l = { t with holder := some (c, l) }) ∧
      (Nat.land l 0x80 = 0 → rleNormal t c l = rleEmit t c (l + 1))) ∧
    (∀ (t : RLEState) (c n : Nat),
      rleEmit t c n =
        ⟨writePixels t.result t.resultOffset c n, t.resultOffset + n * 4, none⟩) := by
  refine ⟨?_, ?_, ?_, fun t c n => rfl⟩
  · intro hc
    subst hc
    simp only [rleStep, h, eq_self_iff_true, if_true]
  · intro hc
    simp only [rleStep, h]
    exact if_neg hc
  · intro t c l
    refine ⟨?_, ?_, ?_⟩
    · intro hl
      simp only [rleNormal, hl, SPECIAL_LENGTH_MARKER, if_pos rfl]
      rfl
    · intro hl hbit
      simp only [rleNormal, SPECIAL_LENGTH_MARKER]
      rw [if_neg hl, if_pos hbit]
    · intro hbit
      have hl : l ≠ 0xff := fun hl => by subst hl; simp at hbit
      simp only [rleNormal, SPECIAL_LENGTH_MARKER]
      rw [if_neg hl, if_neg (by simp [hbit])]

theorem rleStep_holder_spec_witness :
    rleStep ⟨List.replicate 8 0, 0, some (0x61, 0x85)⟩ (0x61, 3) =
      rleEmit ⟨List.replicate 8 0, 0, some (0x61, 0x85)⟩ 0x61
        (1 + 3 + ((Nat.land 0x85 0x7f + 1) <<< 7)) :=
  (rleStep_holder_spec ⟨List.replicate 8 0, 0, some (0x61, 0x85)⟩ 0x61 0x85 0x61 3 rfl).1 rfl

/-! ### The trailing-holder search -/

theorem resolveHolderFrom_of_none (length gap : Nat) : ∀ n : Nat,
    (∀ j, j ≤ n → ¬ ((Nat.land length 0x7f + 1) <<< j) * 4 ≤ gap) →
    resolveHolderFrom length gap n = 0 := by
  intro n
  induction n with
  | zero =>
      intro hn
      simp only [resolveHolderFrom]
      rw [if_neg (hn 0 (Nat.le_refl 0))]
  | succ m ih =>
      intro hn
      simp only [resolveHolderFrom]
      rw [if_neg (hn (m + 1) (Nat.le_refl _))]
      exact ih fun j hj => hn j (Nat.le_succ_of_le hj)

theorem resolveHolderFrom_of_best (length gap i : Nat)
    (hfit : ((Nat.land length 0x7f + 1) <<< i) * 4 ≤ gap) : ∀ n : Nat, i ≤ n →
    (∀ j, j ≤ n → ((Nat.land length 0x7f + 1) <<< j) * 4 ≤ gap → j ≤ i) →
    resolveHolderFrom length gap n = (Nat.land length 0x7f + 1) <<< i := by
  intro n
  induction n with
  | zero =>
      intro hin _
      have hi0 : i = 0 := Nat.le_zero.mp hin
      subst hi0
      simp only [resolveHolderFrom]
      rw [if_pos hfit]
  | succ m ih =>
      intro hin hbest
      simp only [resolveHolderFrom]
      by_cases htop : ((Nat.land length 0x7f + 1) <<< (m + 1)) * 4 ≤ gap
      · have : m + 1 ≤ i := hbest (m + 1) (Nat.le_refl _) htop
        have : i = m + 1 := Nat.le_antisymm hin this
        subst this
        rw [if_pos htop]
      · rw [if_neg htop]
        have him : i ≤ m := by
          by_cases he : i = m + 1
          · subst he; exact absurd hfit htop
          · omega
        exact ih him fun j hj hfj => hbest j (Nat.le_succ_of_le hj) hfj

theorem shiftLeft_pos (a n : Nat) (ha : 0 < a) : 0 < a <<< n := by
  rw [Nat.shiftLeft_eq]
  exact Nat.mul_pos ha (Nat.pos_pow_of_pos n (by omega))

/-- Zeta-reduced unfolding of `decodeRLE`. -/
theorem decodeRLE_eq (buffer : List Nat) (width height : Nat) :
    decodeRLE buffer width height =
      match (rleFold buffer width height).holder with
      | none => (rleFold buffer width height).result
      | some (color, length) =>
          if resolveHolder length
              (width * height * 4 - (rleFold buffer width height).resultOffset) > 0 then
            writePixels (rleFold buffer width height).result
              (rleFold buffer width height).resultOffset color
              (resolveHolder length
                (width * height * 4 - (rleFold buffer width height).resultOffset))
          else (rleFold buffer width height).result := rfl

/-- C2: when the pair loop ends with a pending holder, the decoder tries
shift amounts 7 down to 0 with candidate `((length & 0x7F) + 1) << shift`
against the remaining budget `expectedLength - cursor`: it emits the
candidate of the largest fitting shift, and emits nothing when no
candidate fits. -/
theorem decodeRLE_trailing_holder (buffer : List Nat) (width height color length : Nat)
    (h : (rleFold buffer width height).holder = some (color, length)) :
    ((∀ j, j ≤ 7 → ¬ ((Nat.land length 0x7f + 1) <<< j) * 4 ≤
          width * height * 4 - (rleFold buffer width height).resultOffset) →
      decodeRLE buffer width height = (rleFold buffer width height).result) ∧
    (∀ i, i ≤ 7 →
      ((Nat.land length 0x7f + 1) <<< i) * 4 ≤
          width * height * 4 - (rleFold buffer width height).resultOffset →
      (∀ j, j ≤ 7 → ((Nat.land length 0x7f + 1) <<< j) * 4 ≤
          width * height * 4 - (rleFold buffer width height).resultOffset → j ≤ i) →
      decodeRLE buffer width height =
        writePixels (rleFold buffer width height).result
          (rleFold buffer width height).resultOffset color
          ((Nat.land length 0x7f + 1) <<< i)) := by
  constructor
  · intro hnone
    rw [decodeRLE_eq, h]
    simp only [resolveHolder]
    rw [resolveHolderFrom_of_none _ _ _ hnone]
    rfl
  · intro i hi7 hfit hbest
    rw [decodeRLE_eq, h]
    simp only [resolveHolder]
    rw [resolveHolderFrom_of_best _ _ i hfit 7 hi7 hbest]
    rw [if_pos (shiftLeft_pos _ _ (Nat.succ_pos _))]

theorem decodeRLE_trailing_holder_witness :
    decodeRLE [0x61, 0x80] 1 2 =
      writePixels (rleFold [0x61, 0x80] 1 2).result
        (rleFold [0x61, 0x80] 1 2).resultOffset 0x61 ((Nat.land 0x80 0x7f + 1) <<< 1) :=
  (decodeRLE_trailing_holder [0x61, 0x80] 1 2 0x61 0x80 rfl).2 1 (by decide) (by decide)
    (by decide)

/-- Zeta-reduced unfolding of `decodeReach`. -/
theorem decodeReach_eq (buffer : List Nat) (width height : Nat) :
    decodeReach buffer width height =
      match (rleFold buffer width height).holder with
      | none => (rleFold buffer width height).resultOffset
      | some (_, length) =>
          (rleFold buffer width height).resultOffset +
            resolveHolder length
              (width * height * 4 - (rleFold buffer width height).resultOffset) * 4 := rfl

/-! ### Safety invariant of the decoder state -/

/-- Invariant carried through the pair loop: the output buffer keeps its
exact allocated byte length, and every byte at or beyond the write
cursor still has its initial zero value. -/
def RLEInv (len : Nat) (s : RLEState) : Prop :=
  s.result.length = len ∧ ∀ j, s.resultOffset ≤ j → j < len → s.result[j]? = some 0

theorem RLEInv_rleEmit (len : Nat) (s : RLEState) (c n : Nat) (h : RLEInv len s) :
    RLEInv len (rleEmit s c n) := by
  obtain ⟨hlen, hzero⟩ := h
  refine ⟨by simpa [rleEmit, writePixels_length], ?_⟩
  intro j hj hjlen
  show (writePixels s.result s.resultOffset c n)[j]? = some 0
  rw [writePixels_getElem?_outside _ _ _ _ _ (Or.inr (by simpa [rleEmit] using hj))]
  exact hzero j (by simp only [rleEmit] at hj; omega) hjlen

theorem RLEInv_rleNormal (len : Nat) (s : RLEState) (c l : Nat) (h : RLEInv len s) :
    RLEInv len (rleNormal s c l) := by
  unfold rleNormal
  split
  · exact RLEInv_rleEmit len s c _ h
  · split
    · exact ⟨h.1, h.2⟩
    · exact RLEInv_rleEmit len s c _ h

theorem RLEInv_rleStep (len : Nat) (s : RLEState) (p : Nat × Nat) (h : RLEInv len s) :
    RLEInv len (rleStep s p) := by
  unfold rleStep
  split
  · split
    · exact RLEInv_rleEmit len s _ _ h
    · exact RLEInv_rleNormal len _ _ _ (RLEInv_rleEmit len s _ _ h)
  · exact RLEInv_rleNormal len s _ _ h

theorem RLEInv_foldl (len : Nat) (pairs : List (Nat × Nat)) :
    ∀ (s : RLEState), RLEInv len s → RLEInv len (pairs.foldl rleStep s) := by
  induction pairs with
  | nil => intro s h; exact h
  | cons p rest ih => intro s h; exact ih (rleStep s p) (RLEInv_rleStep len s p h)

theorem RLEInv_rleFold (buffer : List Nat) (width height : Nat) :
    RLEInv (width * height * 4) (rleFold buffer width height) := by
  refine RLEInv_foldl _ _ _ ⟨by simp [rleInit], ?_⟩
  intro j _ hjlen
  simp [rleInit, List.getElem?_replicate, hjlen]

/-- C3: `decodeRLE` always returns a buffer of exactly
`width * height * 4` bytes; `writePixels` never changes the buffer
length and never touches a byte outside the addressed pixel range (so a
write clipped at the end of the buffer cannot spill past it); and every
output byte the stream never reaches keeps its initial zero value.  The
embedding is total, which reflects that the source function cannot
throw: every write goes through the per-pixel bound check. -/
theorem decodeRLE_safe (buffer : List Nat) (width height : Nat) :
    (decodeRLE buffer width height).length = width * height * 4 ∧
    (∀ (result : List Nat) (offset c count : Nat),
      (writePixels result offset c count).length = result.length ∧
      ∀ j, j < offset ∨ offset + count * 4 ≤ j →
        (writePixels result offset c count)[j]? = result[j]?) ∧
    (∀ j, decodeReach buffer width height ≤ j → j < width * height * 4 →
      (decodeRLE buffer width height)[j]? = some 0) := by
  obtain ⟨hlen, hzero⟩ := RLEInv_rleFold buffer width height
  refine ⟨?_, fun result offset c count =>
    ⟨writePixels_length count result offset c,
     fun j hj => writePixels_getElem?_outside count result offset c j hj⟩, ?_⟩
  · rw [decodeRLE_eq]
    rcases hh : (rleFold buffer width height).holder with _ | ⟨color, length⟩
    · exact hlen
    · show (if resolveHolder length
            (width * height * 4 - (rleFold buffer width height).resultOffset) > 0 then
          writePixels (rleFold buffer width height).result
            (rleFold buffer width height).resultOffset color
            (resolveHolder length
              (width * height * 4 - (rleFold buffer width height).resultOffset))
        else (rleFold buffer width height).result).length = width * height * 4
      split
      · rw [writePixels_length]; exact hlen
      · exact hlen
  · intro j hreach hjlen
    rw [decodeReach_eq] at hreach
    rw [decodeRLE_eq]
    rcases hh : (rleFold buffer width height).holder with _ | ⟨color, length⟩
    · rw [hh] at hreach
      exact hzero j hreach hjlen
    · rw [hh] at hreach
      simp only at hreach
      show (if resolveHolder length
            (width * height * 4 - (rleFold buffer width height).resultOffset) > 0 then
          writePixels (rleFold buffer width height).result
            (rleFold buffer width height).resultOffset color
            (resolveHolder length
              (width * height * 4 - (rleFold buffer width height).resultOffset))
        else (rleFold buffer width height).result)[j]? = some 0
      split
      · rw [writePixels_getElem?_outside _ _ _ _ _ (Or.inr hreach)]
        exact hzero j (Nat.le_trans (Nat.le_add_right _ _) hreach) hjlen
      · exact hzero j (Nat.le_trans (Nat.le_add_right _ _) hreach) hjlen

theorem decodeRLE_safe_witness :
    (decodeRLE [0x61, 0] 1 2)[4]? = some 0 ∧
    (writePixels [1, 2, 3, 4, 5] 0 0x61 1)[4]? = ([1, 2, 3, 4, 5] : List Nat)[4]? :=
  ⟨(decodeRLE_safe [0x61, 0] 1 2).2.2 4 (by decide) (by decide),
   ((decodeRLE_safe [0x61, 0] 1 2).2.1 [1, 2, 3, 4, 5] 0 0x61 1).2 4 (by decide)⟩

/-! ## Section 2: byte-level reader and key-value extraction -/

def ADDRESS_SIZE : Nat := 4
def LENGTH_FIELD_SIZE : Nat := 4

/-- `data[i]` for a `Uint8Array`: an out-of-range (or negative, or NaN)
index yields `undefined`, which contributes `0` in the bitwise
arithmetic of `readUint32LE`. -/
def readByte (data : List Nat) (i : Int) : Nat :=
  if 0 ≤ i ∧ i < data.length then data.getD i.toNat 0 else 0

/-- `readUint32LE`: with byte-sized entries the `|`/`<<`/`>>> 0` chain
of the source equals this sum. -/
def readUint32LE (data : List Nat) (offset : Int) : Nat :=
  readByte data offset + readByte data (offset + 1) * 0x100 +
    readByte data (offset + 2) * 0x10000 + readByte data (offset + 3) * 0x1000000

/-- `Uint8Array.prototype.subarray` index normalisation: negative values
are relative to the end, then the result is clamped into `[0, length]`. -/
def jsIndex (len : Nat) (v : Int) : Nat :=
  if v < 0 then (len + v).toNat else min v.toNat len

/-- `buffer.subarray(b, e)`: the clamped range, empty when it is
inverted. -/
def jsSubarray (data : List Nat) (b e : Int) : List Nat :=
  (data.take (jsIndex data.length e)).drop (jsIndex data.length b)

/-- `getContentAtAddress(buffer, address)`.  The address is an `Option
Int` because callers pass `parseInt` results (`none` = NaN).  A NaN
address is not `=== 0`, reads a zero length (every `data[NaN + k]` is
`undefined`) and slices `subarray(NaN, NaN)` = `subarray(0, 0)`. -/
def getContentAtAddress (buffer : List Nat) (address : Option Int) : Option (List Nat) :=
  match address with
  | some a =>
      if a = 0 then none
      else
        some (jsSubarray buffer (a + LENGTH_FIELD_SIZE)
          (a + LENGTH_FIELD_SIZE + readUint32LE buffer a))
  | none => some (jsSubarray buffer 0 0)

/-- Models `new TextDecoder('utf-8').decode(arr)` for the byte ranges of
interest: every byte the claims below depend on is ASCII, and a UTF-8
decoder maps an ASCII byte at an ASCII boundary to the character of its
code point, so each byte becomes the character of its value.
(Multi-byte or malformed UTF-8 sequences really decode to other
characters or U+FFFD; no theorem below depends on such bytes.) -/
def uint8ArrayToString (arr : List Nat) : String :=
  String.mk (arr.map Char.ofNat)

/-- A character allowed inside the tag or the value of the pattern
`<([^:<>]+):([^:<>]+)>`. -/
def isTagChar (c : Char) : Bool := c != ':' && c != '<' && c != '>'

theorem length_dropWhile_le {α : Type} (p : α → Bool) (l : List α) :
    (l.dropWhile p).length ≤ l.length := by
  induction l with
  | nil => exact Nat.le_refl 0
  | cons a rest ih =>
      by_cases h : p a
      · simpa [List.dropWhile, h] using Nat.le_succ_of_le ih
      · simp [List.dropWhile, h]

/-- `content.matchAll(/<([^:<>]+):([^:<>]+)>/gm)`, processed left to
right (worker with explicit fuel; every recursive call shortens the
character list by at least one, so `scanKV` hands it the list length).
The character classes exclude the delimiter characters, so the regex is
deterministic: at a `<`, the tag is the maximal run of non-`:<>`
characters, which must be nonempty and followed by `:`, then the value
likewise followed by `>`.  On a failed attempt the scan resumes one
character later; after a match it resumes after the `>` (matches never
overlap). -/
def scanKVFuel : Nat → List Char → List (String × String)
  | 0, _ => []
  | _, [] => []
  | fuel + 1, c :: rest =>
      if c = '<' then
        let tag := rest.takeWhile isTagChar
        match rest.dropWhile isTagChar with
        | ':' :: r2 =>
            if tag.isEmpty then scanKVFuel fuel rest
            else
              let va := r2.takeWhile isTagChar
              match r2.dropWhile isTagChar with
              | '>' :: r4 =>
                  if va.isEmpty then scanKVFuel fuel rest
                  else (String.mk tag, String.mk va) :: scanKVFuel fuel r4
              | _ => scanKVFuel fuel rest
        | _ => scanKVFuel fuel rest
      else scanKVFuel fuel rest

def scanKV (l : List Char) : List (String × String) := scanKVFuel l.length l

/-- A JavaScript value that can end up inside one of the parser's
aggregation arrays: a string from the stream, or the object inherited
from `Object.prototype` under the given property name (picked up by the
unchecked `data[key]` read, see `kvStep`). -/
inductive JVal where
  | str (s : String)
  | inheritedObj (name : String)
deriving DecidableEq, Repr

/-- The runtime value of a key of the extraction record: a scalar
string, or the array produced for duplicated tags. -/
inductive KVValue where
  | scalar (s : String)
  | list (l : List JVal)
deriving DecidableEq, Repr

/-- Own enumerable properties of a plain-object record, in insertion
order.  (JavaScript additionally enumerates array-index-like keys
first in numeric order; none of the theorems below depends on the
enumeration position of such keys.) -/
abbrev Record := List (String × KVValue)

/-- The property names every plain `{}` object inherits from
`Object.prototype`; `key in data` is true for these even when `data`
has no own property `key`. -/
def objectProtoKeys : List String :=
  ["constructor", "hasOwnProperty", "isPrototypeOf", "propertyIsEnumerable",
   "toLocaleString", "toString", "valueOf", "__defineGetter__", "__defineSetter__",
   "__lookupGetter__", "__lookupSetter__", "__proto__"]

def alookup {α : Type} : List (String × α) → String → Option α
  | [], _ => none
  | (k1, v) :: rest, k => if k1 = k then some v else alookup rest k

/-- Assignment to an own (or fresh) property: update in place, append
when new — JavaScript objects keep the enumeration slot of an existing
key on re-assignment. -/
def aset {α : Type} : List (String × α) → String → α → List (String × α)
  | [], k, v => [(k, v)]
  | (k1, v1) :: rest, k, v =>
      if k1 = k then (k1, v) :: rest else (k1, v1) :: aset rest k v

/-- `data[key] = value` on a plain object: the one exception is the
literal key `"__proto__"`, which hits the inherited accessor instead of
creating an own property (assigning a string there is silently ignored;
assigning an array would mutate the prototype chain, a side effect
outside this model — theorems whose truth could depend on it carry a
no-`"__proto__"`-tag hypothesis). -/
def assignKV (d : Record) (k : String) (v : KVValue) : Record :=
  if k = "__proto__" then d else aset d k v

/-- The `key in data` operator: own properties or `Object.prototype`. -/
def jsIn (d : Record) (k : String) : Bool :=
  (alookup d k).isSome || objectProtoKeys.contains k

/-- Loop body of `extractKeyValue`: aggregate one `(key, value)` match
into the record.  When `key in data` holds only through the prototype,
`data[key]` reads the inherited object, which is not an array, so it
ends up as the first element of the new aggregation array. -/
def kvStep (d : Record) (p : String × String) : Record :=
  if jsIn d p.1 then
    match alookup d p.1 with
    | some (KVValue.list l) => aset d p.1 (KVValue.list (l ++ [JVal.str p.2]))
    | some (KVValue.scalar s) =>
        assignKV d p.1 (KVValue.list [JVal.str s, JVal.str p.2])
    | none => assignKV d p.1 (KVValue.list [JVal.inheritedObj p.1, JVal.str p.2])
  else assignKV d p.1 (KVValue.scalar p.2)

/-- `extractKeyValue(content)`. -/
def extractKeyValue (content : String) : Record :=
  (scanKV content.data).foldl kvStep []

/-- `parseKeyValue(buffer, address)`. -/
def parseKeyValue (buffer : List Nat) (address : Option Int) : Record :=
  match getContentAtAddress buffer address with
  | none => []
  | some content => extractKeyValue (uint8ArrayToString content)

/-! ### Nested key-value grouping (`extractNestedKeyValue`) -/

inductive ParseErr where
  | formatError
  | typeError
  | rangeError
deriving DecidableEq, Repr

/-- Result of a model computation that can throw. -/
inductive PRes (α : Type) : Type where
  | ok (a : α)
  | err (e : ParseErr)
deriving DecidableEq, Repr

/-- The two-level record produced by `extractNestedKeyValue`. -/
abbrev NestedRec := List (String × List (String × String))

/-- The raw `(main, sub)` split of a key: `key.indexOf(delimiter)` (a
one-character delimiter at every call site), else the first matching
known literal prefix from the given list.  The `if (main && sub)`
emptiness guard of the source is applied separately by the caller. -/
def splitKeyRaw (key : String) (delim : Char) (knownPrefixes : List String) :
    Option (String × String) :=
  let idx := key.data.findIdx (fun c => c = delim)
  if idx < key.data.length then
    some (String.mk (key.data.take idx), String.mk (key.data.drop (idx + 1)))
  else
    match knownPrefixes.find? (fun p => p.data.isPrefixOf key.data) with
    | some p => some (p, String.mk (key.data.drop p.data.length))
    | none => none

/-- Property names whose assignment on one of the functions inherited
from `Object.prototype` throws a TypeError in strict mode: `name` and
`length` are non-writable on every function, `prototype` is
non-writable on the `Object` constructor, and `caller`/`arguments` hit
the poisoned accessors of `Function.prototype`. -/
def fnAssignThrows (main sub : String) : Bool :=
  sub = "name" || sub = "length" || sub = "caller" || sub = "arguments" ||
    (main = "constructor" && sub = "prototype")

/-- `data[main][sub] = value` resp. `data[main] = { [sub]: value }`,
with `main in data` resolved through own properties first and then
through `Object.prototype`.  A computed key `[sub]` in an object
literal always creates an own property (even for `"__proto__"`), while
assigning `sub` on an existing inner object hits the prototype setter
when `sub = "__proto__"` and silently changes nothing for a string
value. -/
def nestedAssign (data : NestedRec) (main sub value : String) : PRes NestedRec :=
  match alookup data main with
  | some grp =>
      if sub = "__proto__" then PRes.ok data
      else PRes.ok (aset data main (aset grp sub value))
  | none =>
      if objectProtoKeys.contains main then
        -- `main in data` holds only via the prototype: the assignment
        -- targets the shared inherited function object; the record
        -- never gains an own group, and strict mode throws on the
        -- non-writable/poisoned properties of that function
        if fnAssignThrows main sub then PRes.err ParseErr.typeError
        else PRes.ok data
      else PRes.ok (aset data main [(sub, value)])

/-- Loop body of `extractNestedKeyValue`: non-string values are skipped
(`typeof value !== 'string'`), then the split and the `main && sub`
truthiness guard, then the assignment. -/
def nestedStep (delim : Char) (knownPrefixes : List String) (acc : PRes NestedRec)
    (entry : String × KVValue) : PRes NestedRec :=
  match acc with
  | PRes.err e => PRes.err e
  | PRes.ok data =>
      match entry.2 with
      | KVValue.list _ => PRes.ok data
      | KVValue.scalar v =>
          match splitKeyRaw entry.1 delim knownPrefixes with
          | none => PRes.ok data
          | some (main, sub) =>
              if main = "" ∨ sub = "" then PRes.ok data
              else nestedAssign data main sub v

/-- `extractNestedKeyValue(record, delimiter, prefixes)`; iteration
follows the record's own-property enumeration order. -/
def extractNestedKeyValue (record : Record) (delim : Char)
    (knownPrefixes : List String) : PRes NestedRec :=
  record.foldl (nestedStep delim knownPrefixes) (PRes.ok [])

/-- Removal of the first entry of a key (helper for stating that a key
contributes nothing to a result). -/
def eraseKey {α : Type} : List (String × α) → String → List (String × α)
  | [], _ => []
  | (k1, v) :: rest, k => if k1 = k then rest else (k1, v) :: eraseKey rest k

/-- C4 (code bug): `getContentAtAddress` performs no bounds check.  At
the 8-byte buffer below, address 4 declares a block length of
4294967295, so the block `[8, 8 + 4294967295)` lies far outside the
buffer; the function still returns the silently clamped (here empty)
slice as present content instead of surfacing the out-of-range block as
a recoverable absent-content failure. -/
theorem getContentAtAddress_unchecked :
    getContentAtAddress [0, 0, 0, 0, 0xff, 0xff, 0xff, 0xff] (some 4) = some [] ∧
    ([0, 0, 0, 0, 0xff, 0xff, 0xff, 0xff] : List Nat).length <
      4 + 4 + readUint32LE [0, 0, 0, 0, 0xff, 0xff, 0xff, 0xff] 4 := by
  decide

/-! ### Claim C7: duplicate-tag aggregation -/

/-- The values carried by `tag` among the pattern matches of `content`,
in order of appearance. -/
def tagValues (content : String) (tag : String) : List String :=
  (scanKV content.data).filterMap (fun p => if p.1 = tag then some p.2 else none)

/-- The aggregation a key goes through as its values arrive. -/
def kvAgg : Option KVValue → List String → Option KVValue
  | v, [] => v
  | none, v :: vs => kvAgg (some (KVValue.scalar v)) vs
  | some (KVValue.scalar s), v :: vs =>
      kvAgg (some (KVValue.list [JVal.str s, JVal.str v])) vs
  | some (KVValue.list l), v :: vs =>
      kvAgg (some (KVValue.list (l ++ [JVal.str v]))) vs

theorem alookup_aset_self {α : Type} (d : List (String × α)) (k : String) (v : α) :
    alookup (aset d k v) k = some v := by
  induction d with
  | nil => simp [aset, alookup]
  | cons e rest ih =>
      obtain ⟨k1, v1⟩ := e
      by_cases h : k1 = k
      · simp [aset, alookup, h]
      · simp [aset, alookup, h, ih]

theorem alookup_aset_ne {α : Type} (d : List (String × α)) (k k2 : String) (v : α)
    (h : k ≠ k2) : alookup (aset d k v) k2 = alookup d k2 := by
  induction d with
  | nil => simp [aset, alookup, h]
  | cons e rest ih =>
      obtain ⟨k1, v1⟩ := e
      by_cases h1 : k1 = k
      · subst h1; simp [aset, alookup, h]
      · simp [aset, alookup, h1, ih]

theorem alookup_assignKV_ne (d : Record) (k k2 : String) (v : KVValue) (h : k ≠ k2) :
    alookup (assignKV d k v) k2 = alookup d k2 := by
  unfold assignKV
  split
  · rfl
  · exact alookup_aset_ne d k k2 v h

/-- `kvStep` leaves the lookup of any other key unchanged. -/
theorem alookup_kvStep_ne (d : Record) (p : String × String) (tag : String)
    (h : p.1 ≠ tag) : alookup (kvStep d p) tag = alookup d tag := by
  unfold kvStep
  split
  · rcases hv : alookup d p.1 with _ | v
    · exact alookup_assignKV_ne d p.1 tag _ h
    · rcases v with s | l
      · exact alookup_assignKV_ne d p.1 tag _ h
      · exact alookup_aset_ne d p.1 tag _ h
  · exact alookup_assignKV_ne d p.1 tag _ h

/-- Main fold invariant for the aggregation of one tag that is not an
inherited `Object.prototype` property name, over a match list free of
`"__proto__"` keys. -/
theorem kvFold_alookup (tag : String) (htag : ¬ objectProtoKeys.contains tag = true) :
    ∀ (pairs : List (String × String)) (d : Record),
      (∀ p ∈ pairs, p.1 ≠ "__proto__") →
      alookup (pairs.foldl kvStep d) tag =
        kvAgg (alookup d tag)
          (pairs.filterMap (fun p => if p.1 = tag then some p.2 else none)) := by
  intro pairs
  induction pairs with
  | nil => intro d _; simp [kvAgg]
  | cons p rest ih =>
      intro d hproto
      have hrest : ∀ q ∈ rest, q.1 ≠ "__proto__" := fun q hq => hproto q (List.mem_cons_of_mem p hq)
      by_cases hp : p.1 = tag
      · have hne : tag ≠ "__proto__" := by
          intro he
          apply htag
          rw [he]
          decide
        have hstep : alookup (kvStep d p) tag = some (match alookup d tag with
            | none => KVValue.scalar p.2
            | some (KVValue.scalar s) => KVValue.list [JVal.str s, JVal.str p.2]
            | some (KVValue.list l) => KVValue.list (l ++ [JVal.str p.2])) := by
          unfold kvStep
          rw [hp]
          rcases hv : alookup d tag with _ | v
          · have hfalse : jsIn d tag = false := by
              unfold jsIn
              rw [hv]
              simpa using htag
            rw [hfalse]
            simp only [Bool.false_eq_true, if_false]
            show alookup (assignKV d tag (KVValue.scalar p.2)) tag = some (KVValue.scalar p.2)
            unfold assignKV
            rw [if_neg hne]
            exact alookup_aset_self d tag _
          · have htrue : jsIn d tag = true := by unfold jsIn; rw [hv]; rfl
            rw [htrue]
            simp only [if_true]
            rcases v with s | l
            · show alookup (assignKV d tag (KVValue.list [JVal.str s, JVal.str p.2])) tag =
                some (KVValue.list [JVal.str s, JVal.str p.2])
              unfold assignKV
              rw [if_neg hne]
              exact alookup_aset_self d tag _
            · exact alookup_aset_self d tag _
        rw [List.foldl_cons, ih (kvStep d p) hrest, hstep]
        simp only [List.filterMap_cons, hp, if_pos rfl]
        rcases alookup d tag with _ | v
        · rfl
        · rcases v with s | l <;> rfl
      · rw [List.foldl_cons, ih (kvStep d p) hrest, alookup_kvStep_ne d p tag hp]
        simp [hp]

theorem kvAgg_list (l : List JVal) (vs : List String) :
    kvAgg (some (KVValue.list l)) vs = some (KVValue.list (l ++ vs.map JVal.str)) := by
  induction vs generalizing l with
  | nil => simp [kvAgg]
  | cons v rest ih => simp [kvAgg, ih, List.append_assoc]

/-- C7 counterexample: the tag `constructor` occurs twice with values
`"1"` and `"2"`, but the extracted record does not map it to the list
`["1", "2"]`: because `'constructor' in data` is already true on an
empty object (through `Object.prototype`), the inherited constructor
function is aggregated as a spurious first array element. -/
theorem extractKeyValue_constructor_cex :
    alookup (extractKeyValue "<constructor:1><constructor:2>") "constructor" ≠
      some (KVValue.list [JVal.str "1", JVal.str "2"]) := by
  decide

/-- C7 (amended): for a tag that is not one of the property names
inherited from `Object.prototype`, and a text none of whose matched
tags is `"__proto__"` (such a tag would mutate the record's prototype
chain), a tag occurring `k ≥ 2` times maps to the ordered list of its
`k` values in order of appearance; the first duplicate converts the
scalar into a two-element list and later duplicates append. -/
theorem extractKeyValue_duplicates (content tag : String)
    (htag : ¬ objectProtoKeys.contains tag = true)
    (hproto : ∀ p ∈ scanKV content.data, p.1 ≠ "__proto__")
    (hk : 2 ≤ (tagValues content tag).length) :
    alookup (extractKeyValue content) tag =
      some (KVValue.list ((tagValues content tag).map JVal.str)) := by
  unfold extractKeyValue
  rw [kvFold_alookup tag htag (scanKV content.data) [] hproto]
  show kvAgg none (tagValues content tag) = _
  rcases hvs : tagValues content tag with _ | ⟨v0, vs1⟩
  · rw [hvs] at hk; simp at hk
  · rcases vs1 with _ | ⟨v1, vs2⟩
    · rw [hvs] at hk; simp at hk
    · show kvAgg (some (KVValue.scalar v0)) (v1 :: vs2) = _
      show kvAgg (some (KVValue.list [JVal.str v0, JVal.str v1])) vs2 = _
      rw [kvAgg_list]
      simp

theorem extractKeyValue_duplicates_witness :
    alookup (extractKeyValue "<A:1><A:2>") "A" =
      some (KVValue.list [JVal.str "1", JVal.str "2"]) :=
  extractKeyValue_duplicates "<A:1><A:2>" "A" (by decide) (by decide) (by decide)

/-! ### Claim C10: keys dropped by the nested grouping -/

/-- A key whose first record entry is list-valued, or whose raw split
has an empty part, makes `nestedStep` a no-op on its entry. -/
theorem nestedStep_skip (delim : Char) (knownPrefixes : List String)
    (acc : PRes NestedRec) (k : String) (v : KVValue)
    (h : (∃ l, v = KVValue.list l) ∨
         (∃ m s, splitKeyRaw k delim knownPrefixes = some (m, s) ∧ (m = "" ∨ s = ""))) :
    nestedStep delim knownPrefixes acc (k, v) = acc := by
  rcases acc with data | e
  · rcases h with ⟨l, hl⟩ | ⟨m, s, hsplit, hempty⟩
    · subst hl; rfl
    · rcases v with sv | lv
      · show (match splitKeyRaw k delim knownPrefixes with
          | none => PRes.ok data
          | some (main, sub) =>
              if main = "" ∨ sub = "" then PRes.ok data
              else nestedAssign data main sub sv) = PRes.ok data
        rw [hsplit]
        simp only [if_pos hempty]
      · rfl
  · rfl

theorem foldl_nestedStep_erase (delim : Char) (knownPrefixes : List String) (k : String) :
    ∀ (record : Record) (acc : PRes NestedRec),
      ((∃ l, alookup record k = some (KVValue.list l)) ∨
       (∃ m s, splitKeyRaw k delim knownPrefixes = some (m, s) ∧ (m = "" ∨ s = ""))) →
      record.foldl (nestedStep delim knownPrefixes) acc =
        (eraseKey record k).foldl (nestedStep delim knownPrefixes) acc := by
  intro record
  induction record with
  | nil => intro acc _; rfl
  | cons e rest ih =>
      intro acc h
      obtain ⟨k1, v1⟩ := e
      by_cases hk : k1 = k
      · subst hk
        have hskip : nestedStep delim knownPrefixes acc (k1, v1) = acc := by
          apply nestedStep_skip
          rcases h with ⟨l, hl⟩ | hr
          · left
            refine ⟨l, ?_⟩
            simpa [alookup] using hl
          · right; exact hr
        show List.foldl _ (nestedStep delim knownPrefixes acc (k1, v1)) rest =
          (eraseKey ((k1, v1) :: rest) k1).foldl _ acc
        rw [hskip]
        simp [eraseKey]
      · show List.foldl _ (nestedStep delim knownPrefixes acc (k1, v1)) rest =
          (eraseKey ((k1, v1) :: rest) k).foldl _ acc
        have herase : eraseKey ((k1, v1) :: rest) k = (k1, v1) :: eraseKey rest k := by
          simp [eraseKey, hk]
        rw [herase]
        show List.foldl _ _ rest = List.foldl _ (nestedStep delim knownPrefixes acc (k1, v1)) (eraseKey rest k)
        apply ih
        rcases h with ⟨l, hl⟩ | hr
        · left
          refine ⟨l, ?_⟩
          simpa [alookup, hk] using hl
        · right; exact hr

/-- C10: the nested grouping only ever groups scalar string values.
Any key whose record value is an aggregation list (a tag that appeared
more than once during extraction), and any key whose computed group or
subkey part is the empty string (for example a key beginning or ending
with the delimiter), contributes nothing to the nested result: removing
it from the input record leaves `extractNestedKeyValue` unchanged, with
no error raised. -/
theorem extractNested_drops (record : Record) (delim : Char) (knownPrefixes : List String)
    (k : String)
    (h : (∃ l, alookup record k = some (KVValue.list l)) ∨
         (∃ m s, splitKeyRaw k delim knownPrefixes = some (m, s) ∧ (m = "" ∨ s = ""))) :
    extractNestedKeyValue record delim knownPrefixes =
      extractNestedKeyValue (eraseKey record k) delim knownPrefixes :=
  foldl_nestedStep_erase delim knownPrefixes k record (PRes.ok []) h

theorem extractNested_drops_witness :
    extractNestedKeyValue
        [("X", KVValue.list [JVal.str "1", JVal.str "2"]), ("PAGE3", KVValue.scalar "77")]
        '_' ["PAGE"] =
      extractNestedKeyValue
        (eraseKey [("X", KVValue.list [JVal.str "1", JVal.str "2"]),
          ("PAGE3", KVValue.scalar "77")] "X") '_' ["PAGE"] ∧
    extractNestedKeyValue
        [("A_", KVValue.scalar "v"), ("PAGE3", KVValue.scalar "77")] '_' ["PAGE"] =
      extractNestedKeyValue
        (eraseKey [("A_", KVValue.scalar "v"), ("PAGE3", KVValue.scalar "77")] "A_")
        '_' ["PAGE"] :=
  ⟨extractNested_drops _ '_' ["PAGE"] "X" (Or.inl ⟨[JVal.str "1", JVal.str "2"], by decide⟩),
   extractNested_drops _ '_' ["PAGE"] "A_" (Or.inr ⟨"A", "", by decide⟩)⟩

/-! ## Section 3: container parser (`parseSupernoteFile`) -/

def digitVal (c : Char) : Nat := c.toNat - 48

def leadingDigits (l : List Char) : Option Nat :=
  let ds := l.takeWhile Char.isDigit
  if ds.isEmpty then none
  else some (ds.foldl (fun acc c => acc * 10 + digitVal c) 0)

/-- Models `parseInt(s)` for the inputs the container format produces:
an optional sign followed by decimal digits, further characters
ignored; `none` stands for `NaN`.  (The real `parseInt` additionally
skips leading whitespace and honours a `0x` prefix; no claim below
depends on such inputs.) -/
def parseIntJS (s : String) : Option Int :=
  match s.data with
  | [] => none
  | c :: rest =>
      if c = '-' then (leadingDigits rest).map (fun n => -(n : Int))
      else if c = '+' then (leadingDigits rest).map (fun n => (n : Int))
      else (leadingDigits (c :: rest)).map (fun n => (n : Int))

def jvalToString : JVal → String
  | JVal.str s => s
  | JVal.inheritedObj n => "function " ++ n ++ "() { [native code] }"

/-- `Array.prototype.toString`, i.e. `join(',')`, used when `parseInt`
coerces an aggregation array to a string. -/
def arrayToString : List JVal → String
  | [] => ""
  | [v] => jvalToString v
  | v :: rest => jvalToString v ++ "," ++ arrayToString rest

/-- The recurring source pattern
`parseInt((data[field] as string) || '0')`: an absent field or the
falsy empty string falls back to `'0'`; an aggregation array is truthy
and gets coerced to its comma-joined string. -/
def addressFieldOf (data : Record) (field : String) : Option Int :=
  parseIntJS (match alookup data field with
    | some (KVValue.scalar s) => if s = "" then "0" else s
    | some (KVValue.list l) => arrayToString l
    | none => "0")

/-- `s.split(',')` on the character list: always at least one group,
empty groups preserved. -/
def splitCommaChars : List Char → List (List Char)
  | [] => [[]]
  | c :: rest =>
      if c = ',' then [] :: splitCommaChars rest
      else
        match splitCommaChars rest with
        | g :: gs => (c :: g) :: gs
        | [] => [[c]]

def jsSplitComma (s : String) : List String := (splitCommaChars s.data).map String.mk

/-- The runtime shape of a parsed layer.  `protocol` is declared
`string` in the source interface, but the unchecked `as string` cast
lets an aggregation array through, so the model keeps the raw value. -/
structure SupernoteLayer where
  name : String
  protocol : KVValue
  bitmapData : Option (List Nat)
deriving DecidableEq, Repr

structure SupernotePage where
  layers : List SupernoteLayer
  layerSequence : List String
deriving DecidableEq, Repr

/-- The runtime shape of a parsed document; `equipment` keeps the raw
value for the same reason as `SupernoteLayer.protocol`. -/
structure SupernoteFile where
  signature : String
  version : Nat
  pageWidth : Nat
  pageHeight : Nat
  equipment : KVValue
  pages : List SupernotePage
deriving DecidableEq, Repr

def signatureBytes : List Nat := "noteSN_FILE_VER_".data.map Char.toNat

def isDigitByte (b : Nat) : Bool := 48 ≤ b && b ≤ 57

/-- The signature test: `uint8ArrayToString(buffer.subarray(0, 24))`
matched against `/^noteSN_FILE_VER_(\d{8})/`.  The pattern is 24 pure
ASCII characters, so the decoded string matches exactly when the first
24 bytes are the literal prefix followed by eight ASCII digits (a
shorter buffer yields a shorter string, which cannot match). -/
def checkSignature (buffer : List Nat) : Bool :=
  ((buffer.take 24).take 16 == signatureBytes) &&
    (((buffer.take 24).drop 16).length == 8) &&
    ((buffer.take 24).drop 16).all isDigitByte

/-- `parseInt(signatureMatch[1])` — eight digit characters. -/
def versionOf (buffer : List Nat) : Nat :=
  ((buffer.take 24).drop 16).foldl (fun acc b => acc * 10 + (b - 48)) 0

/-- The footer address: little-endian 32-bit read of
`buffer.subarray(buffer.length - 4)`. -/
def footerAddressOf (buffer : List Nat) : Nat :=
  readUint32LE (jsSubarray buffer ((buffer.length : Int) - ADDRESS_SIZE) buffer.length) 0

def footerRecordOf (buffer : List Nat) : Record :=
  parseKeyValue buffer (some (footerAddressOf buffer))

def footerOf (buffer : List Nat) : PRes NestedRec :=
  extractNestedKeyValue (footerRecordOf buffer) '_' ["PAGE"]

/-- `footer.FILE?.FEATURE ? parseInt(footer.FILE.FEATURE) : 24` — the
empty string is falsy and also falls back to the constant 24. -/
def headerAddressOf (footer : NestedRec) : Option Int :=
  match alookup footer "FILE" with
  | some fileGrp =>
      match alookup fileGrp "FEATURE" with
      | some f => if f = "" then some 24 else parseIntJS f
      | none => some 24
  | none => some 24

def headerRecordOf (buffer : List Nat) (footer : NestedRec) : Record :=
  parseKeyValue buffer (headerAddressOf footer)

/-- `(headerData.APPLY_EQUIPMENT as string) || 'unknown'`: an absent
field or empty string becomes `"unknown"`; a truthy aggregation array
is kept as-is by `||`. -/
def equipmentOf (headerData : Record) : KVValue :=
  match alookup headerData "APPLY_EQUIPMENT" with
  | some (KVValue.scalar s) =>
      if s = "" then KVValue.scalar "unknown" else KVValue.scalar s
  | some (KVValue.list l) => KVValue.list l
  | none => KVValue.scalar "unknown"

def pageDimsOf (equipment : KVValue) : Nat × Nat :=
  if equipment = KVValue.scalar "N5" then (1920, 2560) else (1404, 1872)

def pageAddressesOf (footer : NestedRec) : List (String × String) :=
  (alookup footer "PAGE").getD []

/-- `parseInt(a) - parseInt(b) <= 0` as the sort algorithm sees it: a
NaN comparator result is treated as `+0`, i.e. as "equal". -/
def jsCmpLE (a b : String) : Bool :=
  match parseIntJS a, parseIntJS b with
  | some x, some y => x ≤ y
  | _, _ => true

/-- Stable insertion of a later-arriving element: it goes after every
element comparing less-or-equal. -/
def insertJS (x : String) : List String → List String
  | [] => [x]
  | y :: ys => if jsCmpLE y x then y :: insertJS x ys else x :: y :: ys

/-- `Array.prototype.sort(comparator)`: the ECMAScript contract only
fixes that the result is sorted by a consistent comparator and (since
ES2019) stable; a stable insertion sort realises that contract. -/
def sortJS (l : List String) : List String :=
  l.foldl (fun acc x => insertJS x acc) []

def layerNames : List String := ["MAINLAYER", "LAYER1", "LAYER2", "LAYER3", "BGLAYER"]

/-- The per-layer body of the page loop. -/
def parseLayer (buffer : List Nat) (pageData : Record) (layerName : String) :
    SupernoteLayer :=
  let layerAddress := addressFieldOf pageData layerName
  if layerAddress = some 0 then
    { name := layerName, protocol := KVValue.scalar "", bitmapData := none }
  else
    let layerData := parseKeyValue buffer layerAddress
    { name := layerName
      protocol :=
        match alookup layerData "LAYERPROTOCOL" with
        | some (KVValue.scalar s) =>
            if s = "" then KVValue.scalar "RATTA_RLE" else KVValue.scalar s
        | some (KVValue.list l) => KVValue.list l
        | none => KVValue.scalar "RATTA_RLE"
      bitmapData := getContentAtAddress buffer (addressFieldOf layerData "LAYERBITMAP") }

def pageDataOf (buffer : List Nat) (pageAddresses : List (String × String))
    (idx : String) : Record :=
  parseKeyValue buffer (parseIntJS ((alookup pageAddresses idx).getD ""))

/-- `((pageData.LAYERSEQ as string) || 'MAINLAYER').split(',')`.  When
`LAYERSEQ` was duplicated the record value is an array; the array is
truthy, survives the `||`, and `(array).split` is not a function — the
page loop throws a TypeError. -/
def layerSequenceOf (pageData : Record) : PRes (List String) :=
  match alookup pageData "LAYERSEQ" with
  | some (KVValue.list _) => PRes.err ParseErr.typeError
  | some (KVValue.scalar s) =>
      PRes.ok (jsSplitComma (if s = "" then "MAINLAYER" else s))
  | none => PRes.ok (jsSplitComma "MAINLAYER")

def parsePage (buffer : List Nat) (pageAddresses : List (String × String))
    (idx : String) : PRes SupernotePage :=
  match layerSequenceOf (pageDataOf buffer pageAddresses idx) with
  | PRes.err e => PRes.err e
  | PRes.ok layerSequence =>
      PRes.ok
        { layers := layerNames.map (parseLayer buffer (pageDataOf buffer pageAddresses idx))
          layerSequence := layerSequence }

def mapPRes {α β : Type} (f : α → PRes β) : List α → PRes (List β)
  | [] => PRes.ok []
  | x :: rest =>
      match f x with
      | PRes.err e => PRes.err e
      | PRes.ok y =>
          match mapPRes f rest with
          | PRes.err e => PRes.err e
          | PRes.ok ys => PRes.ok (y :: ys)

/-- `parseSupernoteFile(buffer)`. -/
def parseSupernoteFile (buffer : List Nat) : PRes SupernoteFile :=
  if checkSignature buffer then
    match footerOf buffer with
    | PRes.err e => PRes.err e
    | PRes.ok footer =>
        match mapPRes (parsePage buffer (pageAddressesOf footer))
            (sortJS ((pageAddressesOf footer).map Prod.fst)) with
        | PRes.err e => PRes.err e
        | PRes.ok pages =>
            PRes.ok
              { signature := uint8ArrayToString (buffer.take 24)
                version := versionOf buffer
                pageWidth := (pageDimsOf (equipmentOf (headerRecordOf buffer footer))).1
                pageHeight := (pageDimsOf (equipmentOf (headerRecordOf buffer footer))).2
                equipment := equipmentOf (headerRecordOf buffer footer)
                pages := pages }
  else PRes.err ParseErr.formatError


/-! ### Claims C5 and C6: support lemmas -/

def decValue (s : String) : Nat :=
  s.data.foldl (fun acc c => acc * 10 + digitVal c) 0

def isDigitString (s : String) : Bool := s != "" && s.data.all Char.isDigit

theorem takeWhile_all {α : Type} (p : α → Bool) (l : List α) (h : l.all p = true) :
    l.takeWhile p = l := by
  induction l with
  | nil => rfl
  | cons a rest ih =>
      simp only [List.all_cons, Bool.and_eq_true] at h
      simp [List.takeWhile, h.1, ih h.2]

theorem parseIntJS_digits (s : String) (h : isDigitString s = true) :
    parseIntJS s = some ((decValue s : Nat) : Int) := by
  unfold isDigitString at h
  simp only [Bool.and_eq_true, bne_iff_ne, ne_eq] at h
  obtain ⟨hne, hall⟩ := h
  rcases hd : s.data with _ | ⟨c, rest⟩
  · exfalso
    apply hne
    cases s with
    | mk data => simp at hd; simp [hd]
  · have hcd : Char.isDigit c = true := by
      rw [hd] at hall
      simp only [List.all_cons, Bool.and_eq_true] at hall
      exact hall.1
    have hcm : c ≠ '-' := fun he => absurd (he ▸ hcd) (by decide)
    have hcp : c ≠ '+' := fun he => absurd (he ▸ hcd) (by decide)
    unfold parseIntJS
    rw [hd]
    simp only [if_neg hcm, if_neg hcp]
    unfold leadingDigits
    rw [takeWhile_all Char.isDigit (c :: rest) (hd ▸ hall)]
    simp only [List.isEmpty_cons, Bool.false_eq_true, if_false, Option.map_some]
    unfold decValue
    rw [hd]
    rfl

theorem jsCmpLE_digits (a b : String) (ha : isDigitString a = true)
    (hb : isDigitString b = true) :
    jsCmpLE a b = true ↔ decValue a ≤ decValue b := by
  unfold jsCmpLE
  rw [parseIntJS_digits a ha, parseIntJS_digits b hb]
  simp

theorem insertJS_perm (x : String) (l : List String) :
    (insertJS x l).Perm (x :: l) := by
  induction l with
  | nil => exact List.Perm.refl _
  | cons y ys ih =>
      unfold insertJS
      split
      · exact ((ih.cons y).trans (List.Perm.swap x y ys))
      · exact List.Perm.refl _

theorem foldl_insertJS_perm (l : List String) :
    ∀ acc, (l.foldl (fun a x => insertJS x a) acc).Perm (l ++ acc) := by
  induction l with
  | nil => intro acc; simp
  | cons x rest ih =>
      intro acc
      show (rest.foldl (fun a x => insertJS x a) (insertJS x acc)).Perm _
      refine ((ih (insertJS x acc)).trans ?_)
      refine (List.Perm.append_left rest (insertJS_perm x acc)).trans ?_
      exact List.perm_middle.trans (List.Perm.refl _)

theorem sortJS_perm (l : List String) : (sortJS l).Perm l := by
  simpa using foldl_insertJS_perm l []

theorem pairwise_insertJS (x : String) (l : List String)
    (hx : isDigitString x = true) (hl : ∀ y ∈ l, isDigitString y = true)
    (h : List.Pairwise (fun a b => decValue a ≤ decValue b) l) :
    List.Pairwise (fun a b => decValue a ≤ decValue b) (insertJS x l) := by
  induction l with
  | nil => simp [insertJS]
  | cons y ys ih =>
      have hy : isDigitString y = true := hl y (List.mem_cons_self y ys)
      have hys : ∀ z ∈ ys, isDigitString z = true :=
        fun z hz => hl z (List.mem_cons_of_mem y hz)
      rw [List.pairwise_cons] at h
      obtain ⟨hyall, hpys⟩ := h
      unfold insertJS
      by_cases hc : jsCmpLE y x = true
      · rw [if_pos hc]
        rw [List.pairwise_cons]
        refine ⟨?_, ih hys hpys⟩
        intro z hz
        rcases List.mem_cons.mp ((List.Perm.mem_iff (insertJS_perm x ys)).mp hz) with hz1 | hz2
        · rw [hz1]
          exact (jsCmpLE_digits y x hy hx).mp hc
        · exact hyall z hz2
      · rw [if_neg hc]
        have hxy : decValue x ≤ decValue y := by
          have : ¬ decValue y ≤ decValue x := fun hle =>
            hc ((jsCmpLE_digits y x hy hx).mpr hle)
          omega
        rw [List.pairwise_cons]
        refine ⟨?_, List.pairwise_cons.mpr ⟨hyall, hpys⟩⟩
        intro z hz
        rcases List.mem_cons.mp hz with hz1 | hz2
        · rw [hz1]
          exact hxy
        · exact Nat.le_trans hxy (hyall z hz2)

theorem foldl_insertJS_pairwise (l : List String) :
    ∀ acc, (∀ y ∈ acc, isDigitString y = true) → (∀ y ∈ l, isDigitString y = true) →
      List.Pairwise (fun a b => decValue a ≤ decValue b) acc →
      List.Pairwise (fun a b => decValue a ≤ decValue b)
        (l.foldl (fun a x => insertJS x a) acc) := by
  induction l with
  | nil => intro acc _ _ hp; exact hp
  | cons x rest ih =>
      intro acc hacc hl hp
      have hx : isDigitString x = true := hl x (List.mem_cons_self x rest)
      have hrest : ∀ y ∈ rest, isDigitString y = true :=
        fun y hy => hl y (List.mem_cons_of_mem x hy)
      show List.Pairwise _ (rest.foldl (fun a x => insertJS x a) (insertJS x acc))
      refine ih (insertJS x acc) ?_ hrest (pairwise_insertJS x acc hx hacc hp)
      intro y hy
      rcases List.mem_cons.mp ((List.Perm.mem_iff (insertJS_perm x acc)).mp hy) with h1 | h2
      · rw [h1]; exact hx
      · exact hacc y h2

theorem sortJS_pairwise (l : List String) (hl : ∀ y ∈ l, isDigitString y = true) :
    List.Pairwise (fun a b => decValue a ≤ decValue b) (sortJS l) :=
  foldl_insertJS_pairwise l [] (by simp) hl (List.Pairwise.nil)

theorem mapPRes_ok {α β : Type} (f : α → PRes β) (l : List α)
    (h : ∀ x ∈ l, ∃ y, f x = PRes.ok y) :
    ∃ ys, mapPRes f l = PRes.ok ys ∧ ys.length = l.length := by
  induction l with
  | nil => exact ⟨[], rfl, rfl⟩
  | cons x rest ih =>
      obtain ⟨y, hy⟩ := h x (List.mem_cons_self x rest)
      obtain ⟨ys, hys, hlen⟩ := ih fun z hz => h z (List.mem_cons_of_mem x hz)
      refine ⟨y :: ys, ?_, by simp [hlen]⟩
      unfold mapPRes
      rw [hy, hys]

theorem mapPRes_ok_length {α β : Type} (f : α → PRes β) (l : List α) (ys : List β)
    (h : mapPRes f l = PRes.ok ys) : ys.length = l.length := by
  induction l generalizing ys with
  | nil =>
      unfold mapPRes at h
      cases h
      rfl
  | cons x rest ih =>
      unfold mapPRes at h
      rcases hx : f x with y | e
      · rw [hx] at h
        rcases hrest : mapPRes f rest with zs | e2
        · rw [hrest] at h
          cases h
          simp [ih zs hrest]
        · rw [hrest] at h
          cases h
      · rw [hx] at h
        cases h

/-- `layerSequenceOf` either succeeds or throws the
duplicate-`LAYERSEQ` TypeError; nothing else. -/
theorem layerSequenceOf_cases (pageData : Record) :
    (∃ seq, layerSequenceOf pageData = PRes.ok seq) ∨
      layerSequenceOf pageData = PRes.err ParseErr.typeError := by
  unfold layerSequenceOf
  rcases alookup pageData "LAYERSEQ" with _ | v
  · exact Or.inl ⟨_, rfl⟩
  · rcases v with s | l
    · exact Or.inl ⟨_, rfl⟩
    · exact Or.inr rfl

theorem parsePage_ok (buffer : List Nat) (pageAddresses : List (String × String))
    (idx : String)
    (h : layerSequenceOf (pageDataOf buffer pageAddresses idx) ≠
      PRes.err ParseErr.typeError) :
    ∃ page, parsePage buffer pageAddresses idx = PRes.ok page := by
  rcases layerSequenceOf_cases (pageDataOf buffer pageAddresses idx) with ⟨seq, hseq⟩ | hbad
  · refine ⟨{ layers := layerNames.map (parseLayer buffer (pageDataOf buffer pageAddresses idx))
              layerSequence := seq }, ?_⟩
    unfold parsePage
    rw [hseq]
  · exact absurd hbad h

/-- C5 counterexample input: a container with a perfectly valid
signature whose single page block repeats the `LAYERSEQ` tag.
Layout: bytes 0-23 signature, 24-27 header block length 0, 28-31 footer
length 10, 32-41 footer text `<PAGE1:42>`, 42-45 page block length 24,
46-69 page text `<LAYERSEQ:A><LAYERSEQ:B>`, 70-73 footer address 28. -/
def strBytes (s : String) : List Nat := s.data.map Char.toNat

def le32 (n : Nat) : List Nat := [n % 256, n / 256 % 256, n / 65536 % 256, n / 16777216 % 256]

def dupSeqBuffer : List Nat :=
  strBytes "noteSN_FILE_VER_12345678" ++ le32 0 ++ le32 10 ++ strBytes "<PAGE1:42>" ++
    le32 24 ++ strBytes "<LAYERSEQ:A><LAYERSEQ:B>" ++ le32 28

/-- C5 counterexample: the signature of `dupSeqBuffer` matches, yet the
parse fails — the page record's `LAYERSEQ` value is an aggregation
array, it survives `|| 'MAINLAYER'` because arrays are truthy, and
`(array).split(',')` throws a TypeError.  So parse failure is not
equivalent to a signature mismatch, and the failure is not the
FormatError. -/
theorem parseSupernoteFile_typeError_cex :
    checkSignature dupSeqBuffer = true ∧
    parseSupernoteFile dupSeqBuffer = PRes.err ParseErr.typeError := by
  constructor
  · decide
  · decide

/-- C5 (amended): provided the footer grouping step does not throw (its
tags avoid collisions with `Object.prototype` property names) and no
page block repeats the `LAYERSEQ` tag, `parseSupernoteFile` fails, and
fails with the FormatError, exactly when the first 24 bytes do not
match `noteSN_FILE_VER_` followed by eight decimal digits; on a match
it returns a document.  Failure is atomic by construction: the `PRes`
error constructor carries no partial document. -/
theorem parseSupernoteFile_formatError (buffer : List Nat) (footer : NestedRec)
    (hfooter : footerOf buffer = PRes.ok footer)
    (hseq : ∀ idx ∈ sortJS ((pageAddressesOf footer).map Prod.fst),
      layerSequenceOf (pageDataOf buffer (pageAddressesOf footer) idx) ≠
        PRes.err ParseErr.typeError) :
    (parseSupernoteFile buffer = PRes.err ParseErr.formatError ↔
      checkSignature buffer = false) ∧
    (checkSignature buffer = true → ∃ doc, parseSupernoteFile buffer = PRes.ok doc) := by
  by_cases hsig : checkSignature buffer = true
  · obtain ⟨pages, hpages, _⟩ := mapPRes_ok (parsePage buffer (pageAddressesOf footer))
      (sortJS ((pageAddressesOf footer).map Prod.fst))
      (fun idx hidx => parsePage_ok buffer (pageAddressesOf footer) idx (hseq idx hidx))
    have hok : ∃ doc, parseSupernoteFile buffer = PRes.ok doc := by
      refine ⟨{ signature := uint8ArrayToString (buffer.take 24)
                version := versionOf buffer
                pageWidth := (pageDimsOf (equipmentOf (headerRecordOf buffer footer))).1
                pageHeight := (pageDimsOf (equipmentOf (headerRecordOf buffer footer))).2
                equipment := equipmentOf (headerRecordOf buffer footer)
                pages := pages }, ?_⟩
      unfold parseSupernoteFile
      rw [if_pos hsig, hfooter]
      simp only [hpages]
    obtain ⟨doc, hdoc⟩ := hok
    constructor
    · constructor
      · intro he
        rw [hdoc] at he
        cases he
      · intro hf
        rw [hsig] at hf
        cases hf
    · intro _
      exact ⟨doc, hdoc⟩
  · have hsig' : checkSignature buffer = false := by
      rcases Bool.eq_false_or_eq_true (checkSignature buffer) with h | h
      · exact absurd h hsig
      · exact h
    have herr : parseSupernoteFile buffer = PRes.err ParseErr.formatError := by
      unfold parseSupernoteFile
      rw [hsig']
      simp
    refine ⟨Iff.intro (fun _ => hsig') (fun _ => herr), fun h => absurd h hsig⟩

/-- C6 witness input: valid two-page container whose footer lists page
`10` before page `2` (both pointing at the same empty page block at
address 40).  Layout: bytes 0-23 signature, 24-27 header length 0,
28-39 padding, 40-43 page block length 0, 44-47 footer length 21,
48-68 footer text `<PAGE10:40><PAGE2:40>`, 69-72 footer address 44. -/
def twoPageBuffer : List Nat :=
  strBytes "noteSN_FILE_VER_12345678" ++ le32 0 ++ List.replicate 12 0 ++ le32 0 ++
    le32 21 ++ strBytes "<PAGE10:40><PAGE2:40>" ++ le32 44

theorem parseSupernoteFile_formatError_witness :
    (parseSupernoteFile twoPageBuffer = PRes.err ParseErr.formatError ↔
      checkSignature twoPageBuffer = false) ∧
    (checkSignature twoPageBuffer = true →
      ∃ doc, parseSupernoteFile twoPageBuffer = PRes.ok doc) :=
  parseSupernoteFile_formatError twoPageBuffer [("PAGE", [("10", "40"), ("2", "40")])]
    (by decide) (by decide)

/-- C6: for every container the parse accepts, the page sequence has
exactly one page per entry of the footer's `PAGE` group, and the pages
are built (via `mapPRes` over `parsePage`) along the page-index list
sorted by ascending numeric value of the index strings — independent of
their decimal width, since the sort key is the parsed number, not the
string.  The digit-string hypothesis reflects that the comparator
`parseInt(a) - parseInt(b)` only defines a consistent order on numeric
indices. -/
theorem parseSupernoteFile_pages_ordered (buffer : List Nat) (doc : SupernoteFile)
    (footer : NestedRec)
    (hfooter : footerOf buffer = PRes.ok footer)
    (hdoc : parseSupernoteFile buffer = PRes.ok doc)
    (hdigits : ∀ k ∈ (pageAddressesOf footer).map Prod.fst, isDigitString k = true) :
    doc.pages.length = (pageAddressesOf footer).length ∧
    mapPRes (parsePage buffer (pageAddressesOf footer))
        (sortJS ((pageAddressesOf footer).map Prod.fst)) = PRes.ok doc.pages ∧
    (sortJS ((pageAddressesOf footer).map Prod.fst)).Perm
      ((pageAddressesOf footer).map Prod.fst) ∧
    List.Pairwise (fun a b => decValue a ≤ decValue b)
      (sortJS ((pageAddressesOf footer).map Prod.fst)) := by
  have hperm := sortJS_perm ((pageAddressesOf footer).map Prod.fst)
  by_cases hsig : checkSignature buffer = true
  · unfold parseSupernoteFile at hdoc
    rw [if_pos hsig, hfooter] at hdoc
    simp only at hdoc
    rcases hmap : mapPRes (parsePage buffer (pageAddressesOf footer))
        (sortJS ((pageAddressesOf footer).map Prod.fst)) with pages | e
    · rw [hmap] at hdoc
      simp only at hdoc
      cases hdoc
      refine ⟨?_, ?_, hperm, sortJS_pairwise _ hdigits⟩
      · have h1 : pages.length = (sortJS ((pageAddressesOf footer).map Prod.fst)).length :=
          mapPRes_ok_length _ _ _ hmap
        have h2 := hperm.length_eq
        rw [List.length_map] at h2
        show pages.length = _
        omega
      · rfl
    · rw [hmap] at hdoc
      simp only at hdoc
      cases hdoc
  · unfold parseSupernoteFile at hdoc
    rw [if_neg hsig] at hdoc
    cases hdoc

def blankLayer (n : String) : SupernoteLayer :=
  { name := n, protocol := KVValue.scalar "", bitmapData := none }

def blankPage : SupernotePage :=
  { layers := layerNames.map blankLayer, layerSequence := ["MAINLAYER"] }

def twoPageDoc : SupernoteFile :=
  { signature := "noteSN_FILE_VER_12345678"
    version := 12345678
    pageWidth := 1404
    pageHeight := 1872
    equipment := KVValue.scalar "unknown"
    pages := [blankPage, blankPage] }

theorem parseSupernoteFile_pages_ordered_witness :
    twoPageDoc.pages.length =
      (pageAddressesOf [("PAGE", [("10", "40"), ("2", "40")])]).length ∧
    mapPRes (parsePage twoPageBuffer (pageAddressesOf [("PAGE", [("10", "40"), ("2", "40")])]))
        (sortJS ((pageAddressesOf [("PAGE", [("10", "40"), ("2", "40")])]).map Prod.fst)) =
      PRes.ok twoPageDoc.pages ∧
    (sortJS ((pageAddressesOf [("PAGE", [("10", "40"), ("2", "40")])]).map Prod.fst)).Perm
      ((pageAddressesOf [("PAGE", [("10", "40"), ("2", "40")])]).map Prod.fst) ∧
    List.Pairwise (fun a b => decValue a ≤ decValue b)
      (sortJS ((pageAddressesOf [("PAGE", [("10", "40"), ("2", "40")])]).map Prod.fst)) :=
  parseSupernoteFile_pages_ordered twoPageBuffer twoPageDoc
    [("PAGE", [("10", "40"), ("2", "40")])] (by decide) (by decide) (by decide)

/-! ## Section 4: compositor (`renderPage`)

The blend arithmetic of the source runs on IEEE doubles.  It is
modelled here with exact fractions: on every layer the RLE decoder can
produce, the source alpha is `0` or `255`, so the fractional blending
branch is dead code and no claim below depends on double rounding
inside it.  `Frac` is an unnormalised fraction with positive
denominator (kept positive by `fmk`; the blend never divides by zero on
the guarded paths). -/

structure Frac where
  num : Int
  den : Int
deriving DecidableEq, Repr

def fmk (n d : Int) : Frac := if d < 0 then ⟨-n, -d⟩ else ⟨n, d⟩
def fofNat (n : Nat) : Frac := ⟨n, 1⟩
def fadd (a b : Frac) : Frac := fmk (a.num * b.den + b.num * a.den) (a.den * b.den)
def fsub (a b : Frac) : Frac := fmk (a.num * b.den - b.num * a.den) (a.den * b.den)
def fmul (a b : Frac) : Frac := fmk (a.num * b.num) (a.den * b.den)
def fdiv (a b : Frac) : Frac := fmk (a.num * b.den) (a.den * b.num)
def fpos (a : Frac) : Bool := decide (0 < a.num)

/-- Storing a number into a `Uint8Array`: truncate toward zero, then
take the low 8 bits.  All stored blend values are non-negative, so the
truncation is a floor. -/
def toUint8 (x : Frac) : Nat := (Int.fdiv x.num x.den).toNat % 256

/-- One pixel of the `over` blend loop (`i` is the byte index of the
pixel): source alpha 0 skips, 255 copies, otherwise the standard
alpha-compositing formula guarded against `outA = 0`.  Every channel is
read before any channel of the pixel is reassigned, as in the source. -/
def blendPixel (out : List Nat) (layerData : List Nat) (i : Nat) : List Nat :=
  let srcA := layerData.getD (i + 3) 0
  if srcA = 0 then out
  else if srcA = 255 then
    (((out.set i (layerData.getD i 0)).set (i + 1) (layerData.getD (i + 1) 0)).set
        (i + 2) (layerData.getD (i + 2) 0)).set (i + 3) 255
  else
    let dstA := out.getD (i + 3) 0
    let srcAf := fofNat srcA
    let dstAf := fofNat dstA
    let t := fsub (fofNat 1) (fdiv srcAf (fofNat 255))
    let outA := fadd srcAf (fmul dstAf t)
    if fpos outA then
      (((out.set i
          (toUint8 (fdiv (fadd (fmul (fofNat (layerData.getD i 0)) srcAf)
            (fmul (fmul (fofNat (out.getD i 0)) dstAf) t)) outA))).set (i + 1)
          (toUint8 (fdiv (fadd (fmul (fofNat (layerData.getD (i + 1) 0)) srcAf)
            (fmul (fmul (fofNat (out.getD (i + 1) 0)) dstAf) t)) outA))).set (i + 2)
          (toUint8 (fdiv (fadd (fmul (fofNat (layerData.getD (i + 2) 0)) srcAf)
            (fmul (fmul (fofNat (out.getD (i + 2) 0)) dstAf) t)) outA))).set (i + 3)
          (toUint8 outA)
    else out

/-- `for (let i = 0; i < layerData.length; i += 4)` over the pixels. -/
def blendLayer (out layerData : List Nat) : List Nat :=
  (List.range (layerData.length / 4)).foldl (fun o k => blendPixel o layerData (k * 4)) out

/-- `Math.round(R*0.299 + G*0.587 + B*0.114)` for non-negative values:
round half up of the exact rational, i.e. `floor((sum*1000 + 500)/1000)`
with the weights scaled to integers. -/
def grayOf (r g b : Nat) : Nat := (r * 299 + g * 587 + b * 114 + 500) / 1000

def grayscalePixel (out : List Nat) (i : Nat) : List Nat :=
  let gray := grayOf (out.getD i 0) (out.getD (i + 1) 0) (out.getD (i + 2) 0) % 256
  ((out.set i gray).set (i + 1) gray).set (i + 2) gray

def grayscaleAll (out : List Nat) : List Nat :=
  (List.range (out.length / 4)).foldl (fun o k => grayscalePixel o (k * 4)) out

/-- The output canvas: the init loop stores 255 in all four channels of
every pixel. -/
def whiteCanvas (width height : Nat) : List Nat := List.replicate (width * height * 4) 255

/-- `page.layerSequence.map(find).filter(defined and has bitmap)
.reverse()`. -/
def layersToRender (page : SupernotePage) : List SupernoteLayer :=
  ((((page.layerSequence.map
      (fun name => page.layers.find? (fun l => l.name == name))).filterMap id).filter
    (fun l => l.bitmapData.isSome)).reverse)

/-- Loop body over one resolved layer, including the
`!layer.bitmapData || layer.bitmapData.length === 0` skip.  The
`try/catch` of the source is dead in the model because the decoder is
total (it cannot throw, see C3). -/
def renderLayer (out : List Nat) (width height : Nat) (layer : SupernoteLayer) :
    List Nat :=
  match layer.bitmapData with
  | none => out
  | some bytes =>
      if bytes.length = 0 then out
      else blendLayer out (decodeRLE bytes width height)

structure ImageDataM where
  data : List Nat
  width : Nat
  height : Nat
deriving DecidableEq, Repr

/-- Placeholder page for the out-of-range list read `note.pages[i]`;
only reachable in branches the guards below cut off. -/
def emptyPage : SupernotePage := { layers := [], layerSequence := [] }

/-- `renderPage(note, pageIndex)`.  `PRes.ok none` is the `null`
return; a negative index passes the only guard
(`pageIndex >= note.pages.length`), makes `note.pages[pageIndex]`
undefined and throws a TypeError at `page.layerSequence`; the
`new ImageData(..., width, height)` constructor throws when a dimension
is zero. -/
def renderPage (note : SupernoteFile) (pageIndex : Int) : PRes (Option ImageDataM) :=
  if pageIndex ≥ (note.pages.length : Int) then PRes.ok none
  else if pageIndex < 0 then PRes.err ParseErr.typeError
  else
    let page := note.pages.getD pageIndex.toNat emptyPage
    let outputData := grayscaleAll
      ((layersToRender page).foldl
        (fun o l => renderLayer o note.pageWidth note.pageHeight l)
        (whiteCanvas note.pageWidth note.pageHeight))
    if note.pageWidth = 0 ∨ note.pageHeight = 0 then PRes.err ParseErr.rangeError
    else PRes.ok (some ⟨outputData, note.pageWidth, note.pageHeight⟩)

/-! ### Claims C8 and C9 -/

/-- Zeta-reduced unfolding of `renderPage`. -/
theorem renderPage_eq (note : SupernoteFile) (pageIndex : Int) :
    renderPage note pageIndex =
      if pageIndex ≥ (note.pages.length : Int) then PRes.ok none
      else if pageIndex < 0 then PRes.err ParseErr.typeError
      else if note.pageWidth = 0 ∨ note.pageHeight = 0 then PRes.err ParseErr.rangeError
      else PRes.ok (some
        ⟨grayscaleAll
          ((layersToRender (note.pages.getD pageIndex.toNat emptyPage)).foldl
            (fun o l => renderLayer o note.pageWidth note.pageHeight l)
            (whiteCanvas note.pageWidth note.pageHeight)),
          note.pageWidth, note.pageHeight⟩) := rfl

theorem foldl_congr_mem {α β : Type} (L : List α) (f g : β → α → β)
    (h : ∀ l ∈ L, ∀ o, f o l = g o l) : ∀ acc, L.foldl f acc = L.foldl g acc := by
  induction L with
  | nil => intro acc; rfl
  | cons x rest ih =>
      intro acc
      show List.foldl f (f acc x) rest = List.foldl g (g acc x) rest
      rw [h x (List.mem_cons_self x rest) acc]
      exact ih (fun l hl o => h l (List.mem_cons_of_mem x hl) o) (g acc x)

theorem foldl_const {α β : Type} (L : List α) (f : β → α → β)
    (h : ∀ o l, f o l = o) : ∀ acc, L.foldl f acc = acc := by
  induction L with
  | nil => intro acc; rfl
  | cons x rest ih =>
      intro acc
      show List.foldl f (f acc x) rest = acc
      rw [h acc x]
      exact ih acc

theorem getD_replicate_zero (n j : Nat) : (List.replicate n (0 : Nat)).getD j 0 = 0 := by
  by_cases hj : j < n
  · simp [List.getD, List.getElem?_replicate, hj]
  · simp [List.getD, List.getElem?_eq_none, List.length_replicate, Nat.le_of_not_lt hj]

theorem blendPixel_zero_layer (out : List Nat) (n i : Nat) :
    blendPixel out (List.replicate n 0) i = out := by
  unfold blendPixel
  rw [getD_replicate_zero n (i + 3)]
  rfl

theorem blendLayer_zero (out : List Nat) (n : Nat) :
    blendLayer out (List.replicate n 0) = out := by
  unfold blendLayer
  exact foldl_const _ _ (fun o k => blendPixel_zero_layer o n (k * 4)) out

theorem decodeRLE_nil (width height : Nat) :
    decodeRLE [] width height = List.replicate (width * height * 4) 0 := rfl

/-- The skip of empty bitmaps in the render loop is observationally the
same as blending the decoded empty bitmap, which is all-transparent. -/
theorem renderLayer_eq_blend (out : List Nat) (width height : Nat)
    (layer : SupernoteLayer) (h : layer.bitmapData.isSome = true) :
    renderLayer out width height layer =
      blendLayer out (decodeRLE (layer.bitmapData.getD []) width height) := by
  rcases hb : layer.bitmapData with _ | bytes
  · rw [hb] at h; cases h
  · unfold renderLayer
    rw [hb]
    simp only [Option.getD_some]
    by_cases hlen : bytes.length = 0
    · rw [if_pos hlen]
      have : bytes = [] := List.length_eq_zero.mp hlen
      rw [this, decodeRLE_nil, blendLayer_zero]
    · rw [if_neg hlen]

theorem mem_layersToRender_isSome (page : SupernotePage) (l : SupernoteLayer)
    (h : l ∈ layersToRender page) : l.bitmapData.isSome = true := by
  unfold layersToRender at h
  rw [List.mem_reverse] at h
  exact (List.mem_filter.mp h).2

/-- C8: whenever `renderPage` produces a raster, its pixel data is the
grayscale conversion of the back-to-front `over`-blend fold, over
exactly the layers named by `layerSequence`, resolved against the
page's layer records, with entries that have no bitmap dropped
(without error) and the resulting list reversed (`layersToRender`);
each of those layers is blended in that reversed order after RLE
decoding at the document's page dimensions.  The source additionally
skips layers with a zero-length bitmap, which is observationally the
same as blending their all-transparent decode (`renderLayer_eq_blend`),
so no visible layer is dropped beyond the no-bitmap filter. -/
theorem renderPage_compositing (note : SupernoteFile) (pageIndex : Int) (r : ImageDataM)
    (h : renderPage note pageIndex = PRes.ok (some r)) :
    r.data = grayscaleAll
      ((layersToRender (note.pages.getD pageIndex.toNat emptyPage)).foldl
        (fun o l => blendLayer o
          (decodeRLE (l.bitmapData.getD []) note.pageWidth note.pageHeight))
        (whiteCanvas note.pageWidth note.pageHeight)) := by
  rw [renderPage_eq] at h
  split at h
  · cases h
  · split at h
    · cases h
    · split at h
      · cases h
      · cases h
        show grayscaleAll _ = grayscaleAll _
        refine congrArg grayscaleAll ?_
        refine foldl_congr_mem _ _ _ ?_ _
        intro l hl o
        exact renderLayer_eq_blend o note.pageWidth note.pageHeight l
          (mem_layersToRender_isSome _ l hl)

def oneBlackPixelNote : SupernoteFile :=
  { signature := "", version := 0, pageWidth := 1, pageHeight := 1,
    equipment := KVValue.scalar "unknown",
    pages := [{ layers := [{ name := "MAINLAYER", protocol := KVValue.scalar "RATTA_RLE",
                             bitmapData := some [0x61, 0] }],
                layerSequence := ["MAINLAYER"] }] }

theorem renderPage_compositing_witness :
    (⟨[0, 0, 0, 255], 1, 1⟩ : ImageDataM).data = grayscaleAll
      ((layersToRender (oneBlackPixelNote.pages.getD (Int.toNat 0) emptyPage)).foldl
        (fun o l => blendLayer o
          (decodeRLE (l.bitmapData.getD []) oneBlackPixelNote.pageWidth
            oneBlackPixelNote.pageHeight))
        (whiteCanvas oneBlackPixelNote.pageWidth oneBlackPixelNote.pageHeight)) :=
  renderPage_compositing oneBlackPixelNote 0 ⟨[0, 0, 0, 255], 1, 1⟩ (by decide)

def zeroPageNote : SupernoteFile :=
  { signature := "", version := 0, pageWidth := 1404, pageHeight := 1872,
    equipment := KVValue.scalar "unknown", pages := [] }

/-- C9 counterexample: a negative page index is not caught by the only
range guard (`pageIndex >= note.pages.length`), so
`note.pages[pageIndex]` is undefined and reading `.layerSequence` on it
throws a TypeError instead of returning the absent value. -/
theorem renderPage_negative_cex :
    renderPage zeroPageNote (-1) = PRes.err ParseErr.typeError := by decide

theorem foldl_length_inv {α : Type} (L : List α) (f : List Nat → α → List Nat)
    (h : ∀ o l, (f o l).length = o.length) :
    ∀ acc : List Nat, (L.foldl f acc).length = acc.length := by
  induction L with
  | nil => intro acc; rfl
  | cons x rest ih =>
      intro acc
      show (List.foldl f (f acc x) rest).length = acc.length
      rw [ih (f acc x), h acc x]

theorem blendPixel_length (out layerData : List Nat) (i : Nat) :
    (blendPixel out layerData i).length = out.length := by
  simp only [blendPixel]
  split
  · rfl
  · split
    · simp
    · split
      · simp
      · rfl

theorem blendLayer_length (out layerData : List Nat) :
    (blendLayer out layerData).length = out.length :=
  foldl_length_inv _ _ (fun o k => blendPixel_length o layerData (k * 4)) out

theorem renderLayer_length (out : List Nat) (width height : Nat)
    (layer : SupernoteLayer) :
    (renderLayer out width height layer).length = out.length := by
  unfold renderLayer
  rcases layer.bitmapData with _ | bytes
  · rfl
  · simp only
    split
    · rfl
    · exact blendLayer_length out _

theorem grayscalePixel_length (out : List Nat) (i : Nat) :
    (grayscalePixel out i).length = out.length := by
  unfold grayscalePixel
  simp

theorem grayscaleAll_length (out : List Nat) : (grayscaleAll out).length = out.length :=
  foldl_length_inv _ _ (fun o k => grayscalePixel_length o (k * 4)) out

/-- C9 (amended): for every `pageIndex ≥ pages.length`, `renderPage`
returns the absent value; for every in-range index (with the positive
page dimensions every parsed document has) it returns an RGBA raster of
the document's page width and height.  A negative index, however, is
not guarded and crashes with a TypeError instead of returning absent
(see `renderPage_negative_cex`). -/
theorem renderPage_range (note : SupernoteFile) (pageIndex : Int) :
    (pageIndex ≥ (note.pages.length : Int) → renderPage note pageIndex = PRes.ok none) ∧
    (0 ≤ pageIndex → pageIndex < (note.pages.length : Int) →
      0 < note.pageWidth → 0 < note.pageHeight →
      ∃ r, renderPage note pageIndex = PRes.ok (some r) ∧
        r.width = note.pageWidth ∧ r.height = note.pageHeight ∧
        r.data.length = note.pageWidth * note.pageHeight * 4) := by
  constructor
  · intro hge
    rw [renderPage_eq, if_pos hge]
  · intro h0 hlt hw hh
    rw [renderPage_eq, if_neg (by omega), if_neg (by omega),
      if_neg (by omega : ¬ (note.pageWidth = 0 ∨ note.pageHeight = 0))]
    refine ⟨_, rfl, rfl, rfl, ?_⟩
    show (grayscaleAll _).length = _
    rw [grayscaleAll_length,
      foldl_length_inv _ _ (fun o l => renderLayer_length o note.pageWidth note.pageHeight l)]
    simp [whiteCanvas]

theorem renderPage_range_witness :
    renderPage oneBlackPixelNote 5 = PRes.ok none ∧
    ∃ r, renderPage oneBlackPixelNote 0 = PRes.ok (some r) ∧
      r.width = oneBlackPixelNote.pageWidth ∧ r.height = oneBlackPixelNote.pageHeight ∧
      r.data.length = oneBlackPixelNote.pageWidth * oneBlackPixelNote.pageHeight * 4 :=
  ⟨(renderPage_range oneBlackPixelNote 5).1 (by decide),
   (renderPage_range oneBlackPixelNote 0).2 (by decide) (by decide) (by decide) (by decide)⟩
